/-
Verification of the support/resistance detection core
(`backend/app/services/technical_analysis/support_resistance.py`,
class `SupportResistanceDetector`).

The Python code is shallowly embedded over exact rationals (ℚ): pandas
columns become `List Candle` fields, numpy reductions become list folds,
and every fallible path (KeyError / TypeError / ValueError raised at
runtime) is made explicit with `Except String`.  `DBSCAN(eps,
min_samples=1)` on 1-D data is embedded as its exact semantics: sklearn
rejects a non-positive `eps` at fit time with
`ValueError("eps must be positive.")`, and for a positive `eps` the
clusters are the connected components of the "within eps" relation,
i.e. single-linkage grouping of the sorted value list with gap
threshold `eps`.
-/
import Mathlib

/-- One OHLCV row of the candle window (a pandas DataFrame row in the
source).  `openPrice` stands for the `open` column (`open` is a Lean
keyword). -/
structure Candle where
  timestamp : ℕ
  openPrice : ℚ
  high : ℚ
  low : ℚ
  close : ℚ
  volume : ℚ
deriving DecidableEq, Repr

/-- Default row used for total list indexing (never observed on in-range
indices). -/
def dCandle : Candle := ⟨0, 0, 0, 0, 0, 0⟩

/-- The dict returned by `detect_pivot_points` on a non-empty window:
keys `pivot, r1, s1, r2, s2, r3, s3, method`. -/
structure PivotSet where
  pivot : ℚ
  r1 : ℚ
  s1 : ℚ
  r2 : ℚ
  s2 : ℚ
  r3 : ℚ
  s3 : ℚ
  method : String
deriving DecidableEq, Repr

/-- `method == 'standard'` branch of `detect_pivot_points`
(support_resistance.py lines 101-107). -/
def standardPivots (high low close : ℚ) : PivotSet :=
  let pivot := (high + low + close) / 3
  { pivot := pivot
    r1 := 2 * pivot - low
    s1 := 2 * pivot - high
    r2 := pivot + (high - low)
    s2 := pivot - (high - low)
    r3 := high + 2 * (pivot - low)
    s3 := low - 2 * (high - pivot)
    method := "standard" }

/-- `method == 'fibonacci'` branch (lines 109-115). -/
def fibonacciPivots (high low close : ℚ) : PivotSet :=
  let pivot := (high + low + close) / 3
  { pivot := pivot
    r1 := pivot + (382 / 1000) * (high - low)
    s1 := pivot - (382 / 1000) * (high - low)
    r2 := pivot + (618 / 1000) * (high - low)
    s2 := pivot - (618 / 1000) * (high - low)
    r3 := pivot + (high - low)
    s3 := pivot - (high - low)
    method := "fibonacci" }

/-- `method == 'camarilla'` branch (lines 117-123). -/
def camarillaPivots (high low close : ℚ) : PivotSet :=
  let pivot := (high + low + close) / 3
  { pivot := pivot
    r1 := close + (high - low) * (11 / 10) / 12
    s1 := close - (high - low) * (11 / 10) / 12
    r2 := close + (high - low) * (11 / 10) / 6
    s2 := close - (high - low) * (11 / 10) / 6
    r3 := close + (high - low) * (11 / 10) / 4
    s3 := close - (high - low) * (11 / 10) / 4
    method := "camarilla" }

/-- `detect_pivot_points(df, method)`.  An empty window returns the empty
dict `{}` (modelled `none`); an unknown method raises
`ValueError(f"Unknown pivot method: {method}")` (modelled `Except.error`);
otherwise the pivot dict is computed from the last candle of the window. -/
def detect_pivot_points (df : List Candle) (method : String) :
    Except String (Option PivotSet) :=
  if df.length = 0 then Except.ok none
  else
    let lastC := df.getLastD dCandle
    let high := lastC.high
    let low := lastC.low
    let close := lastC.close
    if method = "standard" then Except.ok (some (standardPivots high low close))
    else if method = "fibonacci" then
      Except.ok (some (fibonacciPivots high low close))
    else if method = "camarilla" then
      Except.ok (some (camarillaPivots high low close))
    else Except.error ("Unknown pivot method: " ++ method)

/-- `scipy.signal.argrelextrema(data, cmp, order)` with the default
`mode='clip'`: index `i` is kept iff `cmp data[i] data[clip (i ± k)]`
holds for every shift `k = 1, ..., order`, indices clipped into
`[0, n-1]`. -/
def argrelextrema (cmp : ℚ → ℚ → Bool) (data : List ℚ) (order : ℕ) :
    List ℕ :=
  (List.range data.length).filter fun i =>
    (List.range order).all fun k =>
      cmp (data.getD i 0) (data.getD (min (i + (k + 1)) (data.length - 1)) 0) &&
      cmp (data.getD i 0) (data.getD (i - (k + 1)) 0)

/-- `detect_fractals(df, left_bars, right_bars)` (lines 29-74): windows
shorter than `left_bars + right_bars + 1` yield two empty lists; otherwise
local extrema of the `low` (support) and `high` (resistance) columns with
`order = left_bars`, returned as `(support_levels, resistance_levels)`. -/
def detect_fractals (df : List Candle) (left_bars right_bars : ℕ) :
    List ℚ × List ℚ :=
  if df.length < left_bars + right_bars + 1 then ([], [])
  else
    let highs := df.map Candle.high
    let lows := df.map Candle.low
    let resistance_indices := argrelextrema (fun a b => decide (b ≤ a)) highs left_bars
    let support_indices := argrelextrema (fun a b => decide (a ≤ b)) lows left_bars
    (support_indices.map (fun i => lows.getD i 0),
     resistance_indices.map (fun i => highs.getD i 0))

/-- Maximum of a list (`numpy`/pandas `.max()`); `0` on the empty list,
which the source never queries. -/
def listMax : List ℚ → ℚ
  | [] => 0
  | x :: t => t.foldl max x

/-- Minimum of a list (pandas `.min()`); `0` on the empty list. -/
def listMin : List ℚ → ℚ
  | [] => 0
  | x :: t => t.foldl min x

/-- Arithmetic mean of a list (pandas `.mean()`, `numpy mean`); `0` on the
empty list (ℚ division by zero). -/
def meanQ (l : List ℚ) : ℚ := l.sum / (l.length : ℚ)

/-- The price bins of `detect_volume_profile`:
`bins = np.linspace(price_min, price_max, num_bins)` followed by
`for i in range(len(bins) - 1)` pairing consecutive edges, giving
`num_bins - 1` half-open-by-overlap intervals
`[pmin + i*w, pmin + (i+1)*w]` with `w = (pmax - pmin) / (num_bins - 1)`. -/
def makeBins (pmin pmax : ℚ) (num_bins : ℕ) : List (ℚ × ℚ) :=
  let w := (pmax - pmin) / ((num_bins : ℚ) - 1)
  (List.range (num_bins - 1)).map fun (i : ℕ) =>
    (pmin + (i : ℚ) * w, pmin + ((i : ℚ) + 1) * w)

/-- One entry of the `volume_profile` list: the dict
`{'price': midpoint, 'volume': v, 'range': (bin_low, bin_high)}`. -/
structure VBin where
  price : ℚ
  volume : ℚ
  bin_low : ℚ
  bin_high : ℚ
deriving DecidableEq, Repr

/-- Return value of `detect_volume_profile`: the empty window returns the
bare list `[]` (line 152), every other successful call returns the dict
`{'poc': ..., 'value_area': ..., 'total_volume': ...}`. -/
inductive VPReturn where
  | emptyList : VPReturn
  | profile (poc : VBin) (value_area : List VBin) (total_volume : ℚ) : VPReturn
deriving DecidableEq, Repr

/-- The value-area accumulation loop (lines 185-193): walk the
volume-descending profile, appending while the running volume is still
below the 70% target, and stop at the first bin where it is not. -/
def valueAreaLoop (target : ℚ) : List VBin → ℚ → List VBin
  | [], _ => []
  | b :: rest, current =>
    if current < target then b :: valueAreaLoop target rest (current + b.volume)
    else []

/-- The `volume_profile` list built by the loop on lines 160-174: one
`VBin` per bin whose accumulated volume (full volume of every candle
whose `[low, high]` range overlaps the bin) is positive. -/
def volumeProfileBins (df : List Candle) (num_bins : ℕ) : List VBin :=
  let price_min := listMin (df.map Candle.low)
  let price_max := listMax (df.map Candle.high)
  (makeBins price_min price_max num_bins).filterMap fun b =>
    let volume :=
      ((df.filter fun c => decide (c.low ≤ b.2) && decide (b.1 ≤ c.high)).map
        Candle.volume).sum
    if 0 < volume then
      some { price := (b.1 + b.2) / 2, volume := volume,
             bin_low := b.1, bin_high := b.2 }
    else none

/-- The profile after the in-place stable `sort(key=volume, reverse=True)`
on line 177. -/
def sortedVolumeProfile (df : List Candle) (num_bins : ℕ) : List VBin :=
  (volumeProfileBins df num_bins).insertionSort fun u v => v.volume ≤ u.volume

/-- `detect_volume_profile(df, num_bins)` (lines 136-201).  Empty window
returns the bare list `[]`.  Otherwise: keep bins overlapped by candles
with positive accumulated volume, sort by volume descending, and take the
value area.  When no bin has positive volume, `poc` is `None` and the
f-string `f"...{poc['price']:.2f}..."` on line 195 raises `TypeError`. -/
def detect_volume_profile (df : List Candle) (num_bins : ℕ) :
    Except String VPReturn :=
  if df.length = 0 then Except.ok VPReturn.emptyList
  else
    match sortedVolumeProfile df num_bins with
    | [] => Except.error "TypeError: NoneType object is not subscriptable"
    | poc :: _ =>
      let total_volume :=
        ((sortedVolumeProfile df num_bins).map VBin.volume).sum
      let value_area_levels :=
        valueAreaLoop ((7 / 10) * total_volume) (sortedVolumeProfile df num_bins) 0
      Except.ok (VPReturn.profile poc (value_area_levels.take 10) total_volume)

/-- Single-linkage grouping of an (ascending) sorted value list: a value
joins the group of its successor iff the gap is at most `eps`.  With
`min_samples = 1` every point of `DBSCAN(eps)` is a core point, so on 1-D
data the DBSCAN clusters are exactly the connected components of the
"within eps" relation, which on a sorted list are these gap-runs. -/
def groupRuns (eps : ℚ) : List ℚ → List (List ℚ)
  | [] => []
  | [x] => [[x]]
  | x :: y :: t =>
    match groupRuns eps (y :: t) with
    | [] => [[x]]
    | g :: gs => if y - x ≤ eps then (x :: g) :: gs else [x] :: g :: gs

/-- `cluster_levels(levels)` (lines 203-239) with `eps=None`: fewer than
two levels are returned unchanged (line 218, before any DBSCAN call);
otherwise `eps = (max - min) * sensitivity` and
`DBSCAN(eps=eps, min_samples=1).fit` is called (line 230).  sklearn
validates `eps` at fit time and raises
`ValueError("eps must be positive.")` whenever `eps <= 0` — reached for
any constant pool of two or more equal levels, or a non-positive
sensitivity.  On a positive `eps` the DBSCAN clusters (embedded as
`groupRuns` on the sorted list) are collapsed to their means and the
centroids returned sorted ascending. -/
def cluster_levels (sensitivity : ℚ) (levels : List ℚ) :
    Except String (List ℚ) :=
  if levels.length < 2 then Except.ok levels
  else if (listMax levels - listMin levels) * sensitivity ≤ 0 then
    Except.error "ValueError: eps must be positive."
  else
    Except.ok
      (((groupRuns ((listMax levels - listMin levels) * sensitivity)
          (levels.insertionSort fun a b => a ≤ b)).map
            meanQ).insertionSort fun a b => a ≤ b)

/-- Lines 275-287 and 305: the support candidate pool (fractal lows, the
nine `s*` pivot values, and value-area midpoints below the price when
the truthiness check on the non-empty area passes), filtered to strictly
below `current_price`. -/
def support_below (fr1 : List ℚ) (pS pF pC : PivotSet)
    (value_area : List VBin) (current_price : ℚ) : List ℚ :=
  (fr1 ++ [pS.s1, pS.s2, pS.s3, pF.s1, pF.s2, pF.s3, pC.s1, pC.s2, pC.s3] ++
   (if value_area.isEmpty then []
    else (value_area.filter fun v => decide (v.price < current_price)).map
      VBin.price)).filter fun s => decide (s < current_price)

/-- Lines 289-302 and 306: the mirrored resistance candidate pool,
filtered to strictly above `current_price`. -/
def resistance_above (fr2 : List ℚ) (pS pF pC : PivotSet)
    (value_area : List VBin) (current_price : ℚ) : List ℚ :=
  (fr2 ++ [pS.r1, pS.r2, pS.r3, pF.r1, pF.r2, pF.r3, pC.r1, pC.r2, pC.r3] ++
   (if value_area.isEmpty then []
    else (value_area.filter fun v => decide (current_price < v.price)).map
      VBin.price)).filter fun r => decide (current_price < r)

/-- Python 3 `round` to an integer: round-half-to-even. -/
def pyRound (x : ℚ) : ℤ :=
  if x - Int.floor x < 1 / 2 then Int.floor x
  else if 1 / 2 < x - Int.floor x then Int.floor x + 1
  else if 2 ∣ Int.floor x then Int.floor x
  else Int.floor x + 1

/-- Python `round(x, 2)`. -/
def round2 (x : ℚ) : ℚ := (pyRound (x * 100) : ℚ) / 100

/-- One output zone: the dict
`{'level': ..., 'touches': ..., 'strength': ..., 'type': ...}`. -/
structure Zone where
  level : ℚ
  touches : ℕ
  strength : ℚ
  type : String
deriving DecidableEq, Repr

/-- `_calculate_zone_strength(levels, df, zone_type)` (lines 335-374):
`tolerance = mean(close) * sensitivity`; `touches` counts candles whose
`low` (support) or `high` (resistance) lies within the tolerance band
around the unrounded level; `strength = min(touches / 5, 1.0)`; the
emitted level and strength are rounded to 2 decimals. -/
def calculate_zone_strength (sensitivity : ℚ) (levels : List ℚ)
    (df : List Candle) (zone_type : String) : List Zone :=
  let tolerance := meanQ (df.map Candle.close) * sensitivity
  levels.map fun level =>
    let touches :=
      if zone_type = "support" then
        (df.filter fun c =>
          decide (level - tolerance ≤ c.low) && decide (c.low ≤ level + tolerance)).length
      else
        (df.filter fun c =>
          decide (level - tolerance ≤ c.high) && decide (c.high ≤ level + tolerance)).length
    { level := round2 level
      touches := touches
      strength := round2 (min ((touches : ℚ) / 5) 1)
      type := zone_type }

/-- The dict returned by `detect_zones` (lines 323-333). -/
structure ZonesResult where
  support : List Zone
  resistance : List Zone
  current_price : ℚ
  pivots_standard : PivotSet
  pivots_fibonacci : PivotSet
  pivots_camarilla : PivotSet
  volume_profile : VPReturn
deriving DecidableEq, Repr

/-- `detect_zones(df, current_price, lookback)` (lines 241-333).  The
window is clipped to its last `lookback` rows; fractals, the three pivot
dicts and the volume profile are computed on the clipped window; the
support pool (fractal lows, the nine `s*` pivot values, value-area
midpoints below price) is filtered to `< current_price`, clustered,
sorted descending, truncated to 10 and scored; symmetrically for
resistance.  On the empty window the pivot dicts are empty and the
subscript `pivots_standard['s1']` on line 276 raises `KeyError`; if the
volume-profile call returned the bare list, `volume_profile.get(...)`
on line 282 would raise `AttributeError`; the two `cluster_levels` calls
on lines 308-309 propagate DBSCAN's `ValueError` when a pool of two or
more levels has a non-positive `eps`. -/
def detect_zones (sensitivity : ℚ) (df : List Candle) (current_price : ℚ)
    (lookback : ℕ) : Except String ZonesResult :=
  let lb := min lookback df.length
  let df_lookback := df.drop (df.length - lb)
  let fr := detect_fractals df_lookback 5 5
  match detect_pivot_points df_lookback "standard" with
  | Except.error e => Except.error e
  | Except.ok oS =>
  match detect_pivot_points df_lookback "fibonacci" with
  | Except.error e => Except.error e
  | Except.ok oF =>
  match detect_pivot_points df_lookback "camarilla" with
  | Except.error e => Except.error e
  | Except.ok oC =>
  match detect_volume_profile df_lookback 50 with
  | Except.error e => Except.error e
  | Except.ok vp =>
  match oS, oF, oC with
  | some pS, some pF, some pC =>
    match vp with
    | VPReturn.emptyList =>
      Except.error "AttributeError: list object has no attribute get"
    | VPReturn.profile poc value_area total_volume =>
      match cluster_levels sensitivity
          (support_below fr.1 pS pF pC value_area current_price) with
      | Except.error e => Except.error e
      | Except.ok clustered_support =>
      match cluster_levels sensitivity
          (resistance_above fr.2 pS pF pC value_area current_price) with
      | Except.error e => Except.error e
      | Except.ok clustered_resistance =>
      Except.ok
        { support :=
            calculate_zone_strength sensitivity
              ((clustered_support.insertionSort fun a b => b ≤ a).take 10)
              df_lookback "support"
          resistance :=
            calculate_zone_strength sensitivity
              ((clustered_resistance.insertionSort fun a b => a ≤ b).take 10)
              df_lookback "resistance"
          current_price := current_price
          pivots_standard := pS
          pivots_fibonacci := pF
          pivots_camarilla := pC
          volume_profile := VPReturn.profile poc value_area total_volume }
  | _, _, _ => Except.error "KeyError: s1"

/-- One output order block: the dict
`{'type', 'top', 'bottom', 'timestamp', 'strength'}`. -/
structure OrderBlock where
  type : String
  top : ℚ
  bottom : ℚ
  timestamp : ℕ
  strength : ℚ
deriving DecidableEq, Repr

/-- The bullish test of `detect_order_blocks` (lines 403-405) at index
`i` of the clipped window. -/
def obBullish (dfl : List Candle) (i : ℕ) : Bool :=
  let current := dfl.getD i dCandle
  let next_candle := dfl.getD (i + 1) dCandle
  decide (current.close * (102 / 100) < next_candle.close) &&
  decide (current.openPrice < current.close) &&
  decide (meanQ (dfl.map Candle.volume) * (15 / 10) < current.volume)

/-- The bearish test of `detect_order_blocks` (lines 416-418) at index
`i` of the clipped window. -/
def obBearish (dfl : List Candle) (i : ℕ) : Bool :=
  let current := dfl.getD i dCandle
  let next_candle := dfl.getD (i + 1) dCandle
  decide (next_candle.close < current.close * (98 / 100)) &&
  decide (current.close < current.openPrice) &&
  decide (meanQ (dfl.map Candle.volume) * (15 / 10) < current.volume)

/-- The blocks appended for loop index `i` in one iteration of the
`detect_order_blocks` scan: the bullish dict (lines 407-413) if the
bullish test fires, then the bearish dict (lines 420-426) if the bearish
test fires. -/
def obBlocksAt (dfl : List Candle) (i : ℕ) : List OrderBlock :=
  let current := dfl.getD i dCandle
  let next_candle := dfl.getD (i + 1) dCandle
  (if obBullish dfl i then
    [{ type := "bullish"
       top := current.high
       bottom := current.low
       timestamp := current.timestamp
       strength :=
         min ((next_candle.close - current.close) / current.close) (1 / 10) * 10 }]
   else []) ++
  (if obBearish dfl i then
    [{ type := "bearish"
       top := current.high
       bottom := current.low
       timestamp := current.timestamp
       strength :=
         min ((current.close - next_candle.close) / current.close) (1 / 10) * 10 }]
   else [])

/-- `detect_order_blocks(df, lookback)` (lines 376-432): windows shorter
than `lookback + 5` give `[]`; otherwise the last `lookback` rows are
scanned at indices `2, ..., len - 3`, and the collected blocks are sorted
by strength descending and truncated to the top 10. -/
def detect_order_blocks (df : List Candle) (lookback : ℕ) :
    List OrderBlock :=
  if df.length < lookback + 5 then []
  else
    let df_lookback := df.drop (df.length - lookback)
    let order_blocks :=
      (List.range' 2 (df_lookback.length - 4)).flatMap fun i =>
        obBlocksAt df_lookback i
    (order_blocks.insertionSort fun u v => v.strength ≤ u.strength).take 10

/-- `support` field of a `detect_zones` result, `[]` on an exception. -/
def zonesSupport : Except String ZonesResult → List Zone
  | Except.ok r => r.support
  | Except.error _ => []

/-- `resistance` field of a `detect_zones` result, `[]` on an exception. -/
def zonesResistance : Except String ZonesResult → List Zone
  | Except.ok r => r.resistance
  | Except.error _ => []

/-- Whether `detect_volume_profile` returned the profile dict. -/
def vpIsProfile : Except String VPReturn → Bool
  | Except.ok (VPReturn.profile _ _ _) => true
  | _ => false

/-- `value_area` of a volume-profile result (`[]` if absent). -/
def vpValueArea : Except String VPReturn → List VBin
  | Except.ok (VPReturn.profile _ va _) => va
  | _ => []

/-- `total_volume` of a volume-profile result (`0` if absent). -/
def vpTotal : Except String VPReturn → ℚ
  | Except.ok (VPReturn.profile _ _ t) => t
  | _ => 0

/-! Concrete windows used to instantiate the claims. -/

/-- A degenerate candle at price 5.096 with volume 7. -/
def c1C2 : Candle := ⟨0, 5, 637/125, 637/125, 637/125, 7⟩

/-- A degenerate candle at price 9.996 with volume 3. -/
def c2C2 : Candle := ⟨1, 9, 2499/250, 2499/250, 2499/250, 3⟩

/-- Two-candle window whose top support centroid 9.996 rounds up to 10.00. -/
def dfC2 : List Candle := [c1C2, c2C2]

/-- A current price of 9.9961, strictly between 9.996 and its rounding 10.00. -/
def pC2 : ℚ := 99961/10000

/-- A degenerate candle at price 100 with volume 1. -/
def cW : Candle := ⟨0, 1, 100, 100, 100, 1⟩

/-- A degenerate candle at price 5.1 with volume 7. -/
def cWa : Candle := ⟨0, 5, 51/10, 51/10, 51/10, 7⟩

/-- A degenerate candle at price 10 with volume 3. -/
def cWb : Candle := ⟨1, 9, 10, 10, 10, 3⟩

/-- Two-candle window whose support pool holds two distinct levels, so
the clustering radius is positive and `detect_zones` succeeds. -/
def dfW2 : List Candle := [cWa, cWb]

/-- One candle spanning prices 0 to 49 with volume 1: its volume is
attributed to every one of the 49 bins. -/
def c049 : Candle := ⟨0, 1, 49, 0, 1, 1⟩

/-- The flat candle of the spec's fractal scenario:
`O=100, H=101, L=99, C=100, V=1e6`. -/
def w9flat : Candle := ⟨0, 100, 101, 99, 100, 1000000⟩

/-- The spike candle of the fractal scenario, with `L=80`. -/
def w9spike : Candle := ⟨7, 100, 101, 80, 100, 1000000⟩

/-- The spec's scenario window: 10 flat candles with the spike at index 7. -/
def W9 : List Candle :=
  [w9flat, w9flat, w9flat, w9flat, w9flat, w9flat, w9flat, w9spike, w9flat, w9flat]

deriving instance DecidableEq for Except

set_option maxRecDepth 40000

/-! Claim C1 -/

/-- C1: the spec says every detection entry point returns an empty result
and never raises on a window shorter than a component's minimum,
including the empty window.  The code violates this: on the empty window
`detect_pivot_points` returns the empty dict, and `detect_zones` then
evaluates `pivots_standard['s1']`, raising `KeyError`. -/
theorem detect_zones_empty_window_raises :
    detect_zones (1/50) [] 100 100 = Except.error "KeyError: s1" := by
  with_unfolding_all decide

/-! Claim C6 -/

/-- C6: on the empty window `detect_volume_profile` does not return a
`VolumeProfile` record with null POC, empty value area and zero total
volume; it returns the bare empty list `[]` (a different shape from the
dict every other successful call returns). -/
theorem detect_volume_profile_empty_bare_list :
    detect_volume_profile [] 50 = Except.ok VPReturn.emptyList := by
  with_unfolding_all decide

/-! Claim C3 -/

/-- C3 counterexample: the claim fails at two kinds of candles the data
model permits (it only requires non-negative high/low and positive
close).  At the degenerate candle `H = L = C = 100` (the claim
explicitly includes `high == low`) the standard pivot set collapses to
`s1 = pivot = r1`; and at `H = 101, L = 99, C = 1000` — a close outside
the `[low, high]` range, with `low < high` — the pivot is 400 while
`s1 = 2*400 - 101 = 699 > pivot`.  Each violation forces one of the two
hypotheses of the amended theorem. -/
theorem standard_pivots_claim_counterexamples :
    (¬ ((standardPivots 100 100 100).s1 < (standardPivots 100 100 100).pivot ∧
        (standardPivots 100 100 100).pivot < (standardPivots 100 100 100).r1)) ∧
    ((99 : ℚ) < 101 ∧
     ¬ ((standardPivots 101 99 1000).s1 < (standardPivots 101 99 1000).pivot ∧
        (standardPivots 101 99 1000).pivot < (standardPivots 101 99 1000).r1)) := by
  refine ⟨?_, by norm_num, ?_⟩ <;> with_unfolding_all decide

/-- C3 amended: for every candle whose close lies between low and high
and whose range is non-degenerate (`low < high`), the standard pivot set
satisfies `s1 < pivot < r1`.  Both hypotheses are necessary: the
degenerate candle kills both strict inequalities, and a close outside
`[low, high]` kills `s1 < pivot` even when `low < high`. -/
theorem standard_pivots_order (high low close : ℚ) (hlc : low ≤ close)
    (hch : close ≤ high) (hlh : low < high) :
    (standardPivots high low close).s1 < (standardPivots high low close).pivot ∧
    (standardPivots high low close).pivot < (standardPivots high low close).r1 := by
  simp only [standardPivots]
  constructor <;> linarith

/-- C3 witness: the amended ordering at the concrete candle
`H=101, L=99, C=100`. -/
theorem standard_pivots_order_witness :
    (99:ℚ) ≤ 100 ∧ (100:ℚ) ≤ 101 ∧ (99:ℚ) < 101 ∧
    ((standardPivots 101 99 100).s1 < (standardPivots 101 99 100).pivot ∧
     (standardPivots 101 99 100).pivot < (standardPivots 101 99 100).r1) :=
  ⟨by norm_num, by norm_num, by norm_num,
   standard_pivots_order 101 99 100 (by norm_num) (by norm_num) (by norm_num)⟩

/-! Claim C8 -/

/-- C8 counterexample: on the empty window the length guard on line 91
fires before the method dispatch, so an unknown method is swallowed
silently — `detect_pivot_points([], 'bogus')` returns the empty dict
instead of raising `ValueError`. -/
theorem detect_pivot_points_empty_unknown_silent :
    detect_pivot_points [] "bogus" = Except.ok none := by
  with_unfolding_all decide

/-- C8 amended: on every NON-empty window, a method outside
`{standard, fibonacci, camarilla}` makes `detect_pivot_points` raise
`ValueError("Unknown pivot method: ...")`. -/
theorem detect_pivot_points_unknown_raises (df : List Candle)
    (method : String) (hdf : df ≠ []) (h1 : method ≠ "standard")
    (h2 : method ≠ "fibonacci") (h3 : method ≠ "camarilla") :
    detect_pivot_points df method =
      Except.error ("Unknown pivot method: " ++ method) := by
  have hlen : ¬ (df.length = 0) := by simpa [List.length_eq_zero] using hdf
  unfold detect_pivot_points
  rw [if_neg hlen, if_neg h1, if_neg h2, if_neg h3]

/-- C8 witness: the amended behaviour at the one-candle window and the
unknown method string `"bogus"`. -/
theorem detect_pivot_points_unknown_raises_witness :
    [cW] ≠ ([] : List Candle) ∧ "bogus" ≠ "standard" ∧
    "bogus" ≠ "fibonacci" ∧ "bogus" ≠ "camarilla" ∧
    detect_pivot_points [cW] "bogus" =
      Except.error ("Unknown pivot method: " ++ "bogus") :=
  ⟨by with_unfolding_all decide, by decide, by decide, by decide,
   detect_pivot_points_unknown_raises [cW] "bogus"
     (by with_unfolding_all decide) (by decide) (by decide) (by decide)⟩

/-! Claim C9 -/

/-- C9 counterexample: the scenario window has only 10 candles, below the
`left_bars + right_bars + 1 = 11` minimum, so `detect_fractals` returns
two empty lists and the support list does not contain 80. -/
theorem fractal_scenario_missing_80 :
    (detect_fractals W9 5 5).1 = [] ∧
    ¬ ((80:ℚ) ∈ (detect_fractals W9 5 5).1) := by
  constructor <;> with_unfolding_all decide

/-- C9 amended: on the 10-candle scenario window the Fractal Scanner
returns empty support and resistance lists (the window is one candle
short of the 11-candle minimum), rather than a support list containing
80. -/
theorem fractal_scenario_returns_empty :
    detect_fractals W9 5 5 = ([], []) := by
  with_unfolding_all decide

/-! Claim C10 -/

/-- C10: in one `detect_order_blocks` iteration a candle is emitted as at
most one block: the bullish branch requires `close > open` and the
bearish branch `close < open`, which cannot hold together, so the list
of blocks appended at any index has length at most 1. -/
theorem order_block_single_type (dfl : List Candle) (i : ℕ) :
    (obBlocksAt dfl i).length ≤ 1 := by
  unfold obBlocksAt
  by_cases hb : obBullish dfl i
  · by_cases hr : obBearish dfl i
    · exfalso
      unfold obBullish at hb
      unfold obBearish at hr
      simp only [Bool.and_eq_true, decide_eq_true_eq] at hb hr
      exact absurd hr.1.2 (not_lt.mpr (le_of_lt hb.1.2))
    · simp [hb, hr]
  · by_cases hr : obBearish dfl i <;> simp [hb, hr]

/-! Claim C5 -/

/-- C5 counterexample: `np.linspace(price_min, price_max, num_bins)`
produces `num_bins` edges and the loop `range(len(bins) - 1)` pairs them
into `num_bins - 1` bins, not `num_bins`: on the window `[c049]`
(prices 0 to 49) with the default `num_bins = 50` the builder creates 49
bins, and its reported `total_volume` is 49 (one unit per bin), not 50. -/
theorem makeBins_count_counterexample :
    (makeBins 0 49 50).length = 49 ∧ ((49 : ℕ) ≠ 50) ∧
    vpTotal (detect_volume_profile [c049] 50) = 49 := by
  refine ⟨by with_unfolding_all decide, by norm_num, ?_⟩
  with_unfolding_all decide

/-- C5 amended: for `num_bins ≥ 2` the builder partitions
`[price_min, price_max]` into exactly `num_bins - 1` equal-width bins:
the first bin starts at `price_min`, the last ends at `price_max`,
consecutive bins share an endpoint, and every bin has width
`(price_max - price_min) / (num_bins - 1)`. -/
theorem makeBins_partition (a b : ℚ) (n : ℕ) (hn : 2 ≤ n) :
    (makeBins a b n).length = n - 1 ∧
    ((makeBins a b n).head?).map Prod.fst = some a ∧
    ((makeBins a b n).getLast?).map Prod.snd = some b ∧
    List.Chain' (fun p q => p.2 = q.1) (makeBins a b n) ∧
    ∀ p ∈ makeBins a b n, p.2 - p.1 = (b - a) / ((n : ℚ) - 1) := by
  obtain ⟨k, hk⟩ : ∃ k, n - 1 = k + 1 := ⟨n - 2, by omega⟩
  have hkn : n = k + 2 := by omega
  have hcast : ((n : ℚ) - 1) = (k : ℚ) + 1 := by
    subst hkn; push_cast; ring
  have hne : ((k : ℚ) + 1) ≠ 0 := by positivity
  have hdef : makeBins a b n =
      (List.range (k + 1)).map (fun (i : ℕ) =>
        (a + (i : ℚ) * ((b - a) / ((n : ℚ) - 1)),
         a + ((i : ℚ) + 1) * ((b - a) / ((n : ℚ) - 1)))) := by
    rw [makeBins, hk]
  refine ⟨?_, ?_, ?_, ?_, ?_⟩
  · rw [hdef, List.length_map, List.length_range, hk]
  · rw [hdef, List.head?_map, List.head?_range]
    norm_num
  · rw [hdef, List.range_succ, List.map_append, List.map_cons, List.map_nil,
      List.getLast?_concat, Option.map_some']
    have hb : a + ((k : ℚ) + 1) * ((b - a) / ((n : ℚ) - 1)) = b := by
      rw [hcast, mul_comm, div_mul_cancel₀ _ hne]; ring
    simp [hb]
  · rw [hdef, List.chain'_map]
    refine (List.chain'_range_succ _ k).mpr ?_
    intro m _
    push_cast
    ring
  · intro p hp
    rw [hdef] at hp
    simp only [List.mem_map] at hp
    obtain ⟨i, _, rfl⟩ := hp
    ring

/-- C5 witness: the amended bin layout at `price_min = 0`,
`price_max = 49`, default `num_bins = 50`. -/
theorem makeBins_partition_witness :
    (2 ≤ 50) ∧
    ((makeBins 0 49 50).length = 50 - 1 ∧
     ((makeBins 0 49 50).head?).map Prod.fst = some 0 ∧
     ((makeBins 0 49 50).getLast?).map Prod.snd = some 49 ∧
     List.Chain' (fun p q => p.2 = q.1) (makeBins 0 49 50) ∧
     ∀ p ∈ makeBins 0 49 50, p.2 - p.1 = (49 - 0) / ((50 : ℚ) - 1)) :=
  ⟨by norm_num, makeBins_partition 0 49 50 (by norm_num)⟩

/-! Claim C4 -/

/-- Helper: the value-area loop returns a prefix of the profile it
walks. -/
lemma valueAreaLoop_front (target : ℚ) :
    ∀ (l : List VBin) (c : ℚ), valueAreaLoop target l c <+: l := by
  intro l
  induction l with
  | nil => intro c; exact List.nil_prefix
  | cons b rest ih =>
    intro c
    by_cases hc : c < target
    · simp only [valueAreaLoop, if_pos hc]
      obtain ⟨t, ht⟩ := ih (c + b.volume)
      exact ⟨t, by simp [ht]⟩
    · simp only [valueAreaLoop, if_neg hc]
      exact List.nil_prefix

/-- Helper: the value-area loop either consumes the whole profile or
stops only once the accumulated volume has reached the target. -/
lemma valueAreaLoop_reaches (target : ℚ) :
    ∀ (l : List VBin) (c : ℚ),
      valueAreaLoop target l c = l ∨
      target ≤ c + ((valueAreaLoop target l c).map VBin.volume).sum := by
  intro l
  induction l with
  | nil => intro c; exact Or.inl rfl
  | cons b rest ih =>
    intro c
    by_cases hc : c < target
    · simp only [valueAreaLoop, if_pos hc]
      rcases ih (c + b.volume) with h | h
      · exact Or.inl (by rw [h])
      · refine Or.inr ?_
        simp only [List.map_cons, List.sum_cons]
        linarith
    · simp only [valueAreaLoop, if_neg hc]
      refine Or.inr ?_
      simpa using not_lt.mp hc

/-- Helper: every bin kept by the profile builder carries positive
volume (the `if volume > 0` filter on line 169). -/
lemma mem_volumeProfileBins_pos (df : List Candle) (n : ℕ) (b : VBin)
    (hb : b ∈ volumeProfileBins df n) : 0 < b.volume := by
  unfold volumeProfileBins at hb
  simp only [List.mem_filterMap] at hb
  obtain ⟨bin, _, hbin⟩ := hb
  by_cases hv : 0 < ((df.filter fun c =>
      decide (c.low ≤ bin.2) && decide (bin.1 ≤ c.high)).map Candle.volume).sum
  · rw [if_pos hv] at hbin
    cases hbin
    exact hv
  · rw [if_neg hv] at hbin
    cases hbin

/-- Helper: bounds of the capped value area over any positive-volume
profile list. -/
lemma valueArea_bounds_core (l : List VBin)
    (hpos : ∀ b ∈ l, 0 < b.volume) :
    (((valueAreaLoop ((7/10) * (l.map VBin.volume).sum) l 0).take 10).map
        VBin.volume).sum ≤ (l.map VBin.volume).sum ∧
    (((valueAreaLoop ((7/10) * (l.map VBin.volume).sum) l 0).take 10).length < 10 →
      (7/10) * (l.map VBin.volume).sum ≤
        (((valueAreaLoop ((7/10) * (l.map VBin.volume).sum) l 0).take 10).map
          VBin.volume).sum) := by
  set total := (l.map VBin.volume).sum with htotal
  set out := valueAreaLoop ((7/10) * total) l 0 with hout
  have htot_nonneg : 0 ≤ total := by
    refine List.sum_nonneg ?_
    intro x hx
    simp only [List.mem_map] at hx
    obtain ⟨b, hb, rfl⟩ := hx
    exact le_of_lt (hpos b hb)
  constructor
  · have hpre : (out.take 10) <+: l :=
      (List.take_prefix 10 out).trans (valueAreaLoop_front _ l 0)
    obtain ⟨t, ht⟩ := hpre
    have hsplit : (l.map VBin.volume).sum =
        ((out.take 10).map VBin.volume).sum + (t.map VBin.volume).sum := by
      rw [← ht, List.map_append, List.sum_append]
    have htn : 0 ≤ (t.map VBin.volume).sum := by
      refine List.sum_nonneg ?_
      intro x hx
      simp only [List.mem_map] at hx
      obtain ⟨b, hb, rfl⟩ := hx
      have : b ∈ l := by rw [← ht]; exact List.mem_append_right _ hb
      exact le_of_lt (hpos b this)
    rw [htotal]
    linarith
  · intro hlen
    have hlenout : out.length < 10 := by
      rw [List.length_take] at hlen
      omega
    have htake : out.take 10 = out := List.take_of_length_le (by omega)
    rw [htake]
    rcases valueAreaLoop_reaches ((7/10) * total) l 0 with h | h
    · rw [← hout] at h
      rw [h]
      rw [← htotal]
      linarith
    · rw [← hout] at h
      simpa using h

/-- C4 counterexample: on the single candle spanning prices 0..49 every
one of the 49 bins receives the full unit volume, so `total_volume = 49`
and the 70% target is 34.3; the loop would need 35 bins, but the
`[:10]` cap truncates the value area to 10 bins summing to 10 < 34.3. -/
theorem value_area_below_70_percent :
    vpTotal (detect_volume_profile [c049] 50) = 49 ∧
    ((vpValueArea (detect_volume_profile [c049] 50)).map VBin.volume).sum = 10 ∧
    ¬ ((7/10) * vpTotal (detect_volume_profile [c049] 50) ≤
        ((vpValueArea (detect_volume_profile [c049] 50)).map VBin.volume).sum) := by
  refine ⟨?_, ?_, ?_⟩ <;> with_unfolding_all decide

/-- C4 amended: whenever `detect_volume_profile` returns a profile (some
bin has nonzero volume), the value-area volumes sum to at most
`total_volume`; they reach 70% of `total_volume` whenever the returned
value area has fewer than 10 bins, i.e. whenever the 10-bin cap did not
truncate the accumulation. -/
theorem value_area_bounds (df : List Candle) (n : ℕ)
    (h : vpIsProfile (detect_volume_profile df n) = true) :
    ((vpValueArea (detect_volume_profile df n)).map VBin.volume).sum ≤
      vpTotal (detect_volume_profile df n) ∧
    ((vpValueArea (detect_volume_profile df n)).length < 10 →
      (7/10) * vpTotal (detect_volume_profile df n) ≤
        ((vpValueArea (detect_volume_profile df n)).map VBin.volume).sum) := by
  by_cases hdf : df.length = 0
  · exfalso
    unfold detect_volume_profile at h
    rw [if_pos hdf] at h
    simp [vpIsProfile] at h
  · cases hsp : sortedVolumeProfile df n with
    | nil =>
      exfalso
      unfold detect_volume_profile at h
      rw [if_neg hdf, hsp] at h
      simp [vpIsProfile] at h
    | cons poc rest =>
      have hval : detect_volume_profile df n =
          Except.ok (VPReturn.profile poc
            ((valueAreaLoop ((7/10) * (((poc :: rest).map VBin.volume).sum))
              (poc :: rest) 0).take 10)
            (((poc :: rest).map VBin.volume).sum)) := by
        unfold detect_volume_profile
        rw [if_neg hdf, hsp]
      have hpos : ∀ b ∈ (poc :: rest), 0 < b.volume := by
        intro b hb
        refine mem_volumeProfileBins_pos df n b ?_
        have : b ∈ sortedVolumeProfile df n := by rw [hsp]; exact hb
        unfold sortedVolumeProfile at this
        exact (List.mem_insertionSort _).mp this
      have hcore := valueArea_bounds_core (poc :: rest) hpos
      rw [hval]
      simpa [vpValueArea, vpTotal] using hcore

/-- C4 witness: the amended bounds at the two-candle window `dfC2`,
whose value area holds one bin of volume 7 out of a total of 10. -/
theorem value_area_bounds_witness :
    vpIsProfile (detect_volume_profile dfC2 50) = true ∧
    (((vpValueArea (detect_volume_profile dfC2 50)).map VBin.volume).sum ≤
        vpTotal (detect_volume_profile dfC2 50) ∧
     ((vpValueArea (detect_volume_profile dfC2 50)).length < 10 →
       (7/10) * vpTotal (detect_volume_profile dfC2 50) ≤
         ((vpValueArea (detect_volume_profile dfC2 50)).map VBin.volume).sum)) :=
  ⟨by with_unfolding_all decide,
   value_area_bounds dfC2 50 (by with_unfolding_all decide)⟩

/-! Claim C2 -/

/-- Helper: `groupRuns` of a non-empty list starts with a group headed
by the first element. -/
lemma groupRuns_head (eps : ℚ) :
    ∀ (x : ℚ) (t : List ℚ), ∃ g gs, groupRuns eps (x :: t) = (x :: g) :: gs := by
  intro x t
  induction t generalizing x with
  | nil => exact ⟨[], [], rfl⟩
  | cons y s ih =>
    obtain ⟨g, gs, hg⟩ := ih y
    by_cases hxy : y - x ≤ eps
    · refine ⟨y :: g, gs, ?_⟩
      simp only [groupRuns, hg, if_pos hxy]
    · refine ⟨[], (y :: g) :: gs, ?_⟩
      simp only [groupRuns, hg, if_neg hxy]

/-- Helper: every group produced by `groupRuns` is non-empty. -/
lemma groupRuns_ne_nil (eps : ℚ) :
    ∀ (l : List ℚ), ∀ g ∈ groupRuns eps l, g ≠ [] := by
  intro l
  induction l with
  | nil => intro g hg; simp [groupRuns] at hg
  | cons x t ih =>
    intro g hg
    cases t with
    | nil =>
      simp only [groupRuns, List.mem_singleton] at hg
      subst hg; simp
    | cons y s =>
      obtain ⟨g0, gs, hg0⟩ := groupRuns_head eps y s
      simp only [groupRuns, hg0] at hg
      by_cases hxy : y - x ≤ eps
      · rw [if_pos hxy] at hg
        rcases List.mem_cons.mp hg with rfl | hmem
        · simp
        · exact ih g (by rw [hg0]; exact List.mem_cons_of_mem _ hmem)
      · rw [if_neg hxy] at hg
        rcases List.mem_cons.mp hg with rfl | hmem
        · simp
        · exact ih g (by rw [hg0]; exact hmem)

/-- Helper: the groups of `groupRuns` concatenate back to the input
list (each input value lands in exactly one cluster). -/
lemma groupRuns_flatten (eps : ℚ) :
    ∀ (l : List ℚ), (groupRuns eps l).flatten = l := by
  intro l
  induction l with
  | nil => rfl
  | cons x t ih =>
    cases t with
    | nil => rfl
    | cons y s =>
      obtain ⟨g0, gs, hg0⟩ := groupRuns_head eps y s
      rw [hg0] at ih
      simp only [groupRuns, hg0]
      by_cases hxy : y - x ≤ eps
      · rw [if_pos hxy]
        simp only [List.flatten_cons] at ih ⊢
        simp [ih]
      · rw [if_neg hxy]
        simp only [List.flatten_cons] at ih ⊢
        simp [ih]

/-- Helper: a non-empty list of values all below `p` sums to less than
`p` times its length. -/
lemma sum_lt_card_mul (p : ℚ) :
    ∀ (g : List ℚ), g ≠ [] → (∀ a ∈ g, a < p) → g.sum < (g.length : ℚ) * p := by
  intro g
  induction g with
  | nil => intro h; exact absurd rfl h
  | cons a t ih =>
    intro _ h
    cases t with
    | nil =>
      simpa using h a (by simp)
    | cons b s =>
      have ht := ih (by simp) (fun x hx => h x (List.mem_cons_of_mem _ hx))
      have ha := h a (by simp)
      simp only [List.sum_cons, List.length_cons] at ht ⊢
      push_cast
      push_cast at ht
      linarith

/-- Helper: mirror of `sum_lt_card_mul` for lower bounds. -/
lemma card_mul_lt_sum (p : ℚ) :
    ∀ (g : List ℚ), g ≠ [] → (∀ a ∈ g, p < a) → (g.length : ℚ) * p < g.sum := by
  intro g
  induction g with
  | nil => intro h; exact absurd rfl h
  | cons a t ih =>
    intro _ h
    cases t with
    | nil =>
      simpa using h a (by simp)
    | cons b s =>
      have ht := ih (by simp) (fun x hx => h x (List.mem_cons_of_mem _ hx))
      have ha := h a (by simp)
      simp only [List.sum_cons, List.length_cons] at ht ⊢
      push_cast
      push_cast at ht
      linarith

/-- Helper: the mean of a non-empty list of values all below `p` is
below `p`. -/
lemma meanQ_lt (g : List ℚ) (hg : g ≠ []) (p : ℚ)
    (h : ∀ a ∈ g, a < p) : meanQ g < p := by
  have hlen : (0 : ℚ) < (g.length : ℚ) := by
    have := List.length_pos.mpr hg
    exact_mod_cast this
  rw [meanQ, div_lt_iff₀ hlen]
  have := sum_lt_card_mul p g hg h
  linarith [this]

/-- Helper: mirror of `meanQ_lt`. -/
lemma lt_meanQ (g : List ℚ) (hg : g ≠ []) (p : ℚ)
    (h : ∀ a ∈ g, p < a) : p < meanQ g := by
  have hlen : (0 : ℚ) < (g.length : ℚ) := by
    have := List.length_pos.mpr hg
    exact_mod_cast this
  rw [meanQ, lt_div_iff₀ hlen]
  have := card_mul_lt_sum p g hg h
  linarith [this]

/-- Helper: clustering preserves a strict upper bound — every centroid
is a mean of input values, so if every input level is below `p`, every
cluster centroid is too. -/
lemma cluster_levels_lt (s : ℚ) (xs : List ℚ) (p : ℚ) (out : List ℚ)
    (hout : cluster_levels s xs = Except.ok out)
    (h : ∀ x ∈ xs, x < p) :
    ∀ c ∈ out, c < p := by
  unfold cluster_levels at hout
  by_cases hlen : xs.length < 2
  · rw [if_pos hlen, Except.ok.injEq] at hout
    subst hout
    exact h
  · rw [if_neg hlen] at hout
    by_cases heps : (listMax xs - listMin xs) * s ≤ 0
    · rw [if_pos heps] at hout
      exact absurd hout (by simp)
    · rw [if_neg heps, Except.ok.injEq] at hout
      subst hout
      intro c hc
      simp only [List.mem_insertionSort, List.mem_map] at hc
      obtain ⟨g, hg, rfl⟩ := hc
      refine meanQ_lt g (groupRuns_ne_nil _ _ g hg) p ?_
      intro a ha
      have hmem : a ∈ (groupRuns ((listMax xs - listMin xs) * s)
          (xs.insertionSort fun a b => a ≤ b)).flatten :=
        List.mem_flatten.mpr ⟨g, hg, ha⟩
      rw [groupRuns_flatten, List.mem_insertionSort] at hmem
      exact h a hmem

/-- Helper: mirror of `cluster_levels_lt` for lower bounds. -/
lemma cluster_levels_gt (s : ℚ) (xs : List ℚ) (p : ℚ) (out : List ℚ)
    (hout : cluster_levels s xs = Except.ok out)
    (h : ∀ x ∈ xs, p < x) :
    ∀ c ∈ out, p < c := by
  unfold cluster_levels at hout
  by_cases hlen : xs.length < 2
  · rw [if_pos hlen, Except.ok.injEq] at hout
    subst hout
    exact h
  · rw [if_neg hlen] at hout
    by_cases heps : (listMax xs - listMin xs) * s ≤ 0
    · rw [if_pos heps] at hout
      exact absurd hout (by simp)
    · rw [if_neg heps, Except.ok.injEq] at hout
      subst hout
      intro c hc
      simp only [List.mem_insertionSort, List.mem_map] at hc
      obtain ⟨g, hg, rfl⟩ := hc
      refine lt_meanQ g (groupRuns_ne_nil _ _ g hg) p ?_
      intro a ha
      have hmem : a ∈ (groupRuns ((listMax xs - listMin xs) * s)
          (xs.insertionSort fun a b => a ≤ b)).flatten :=
        List.mem_flatten.mpr ⟨g, hg, ha⟩
      rw [groupRuns_flatten, List.mem_insertionSort] at hmem
      exact h a hmem

/-- Helper: Python rounding moves a value up by at most 1/2. -/
lemma pyRound_le (x : ℚ) : (pyRound x : ℚ) ≤ x + 1/2 := by
  have hfl : (Int.floor x : ℚ) ≤ x := Int.floor_le x
  have hfu : x < (Int.floor x : ℚ) + 1 := Int.lt_floor_add_one x
  unfold pyRound
  split
  · linarith
  · split
    · push_cast; linarith
    · split
      · linarith
      · push_cast
        rename_i h1 h2 _
        linarith

/-- Helper: Python rounding moves a value down by at most 1/2. -/
lemma le_pyRound (x : ℚ) : x - 1/2 ≤ (pyRound x : ℚ) := by
  have hfl : (Int.floor x : ℚ) ≤ x := Int.floor_le x
  have hfu : x < (Int.floor x : ℚ) + 1 := Int.lt_floor_add_one x
  unfold pyRound
  split
  · rename_i h1
    linarith
  · split
    · push_cast; linarith
    · split
      · rename_i h1 h2 _
        linarith
      · push_cast; linarith

/-- Helper: rounding to 2 decimals adds at most half a cent. -/
lemma round2_le (x : ℚ) : round2 x ≤ x + 1/200 := by
  have := pyRound_le (x * 100)
  unfold round2
  linarith

/-- Helper: rounding to 2 decimals subtracts at most half a cent. -/
lemma le_round2 (x : ℚ) : x - 1/200 ≤ round2 x := by
  have := le_pyRound (x * 100)
  unfold round2
  linarith

/-- Helper: zones built from levels strictly below `p` have rounded
level below `p + 0.005`. -/
lemma zone_levels_lt (sens : ℚ) (levels : List ℚ) (df : List Candle)
    (zt : String) (p : ℚ) (h : ∀ l ∈ levels, l < p) :
    ∀ z ∈ calculate_zone_strength sens levels df zt, z.level < p + 1/200 := by
  intro z hz
  unfold calculate_zone_strength at hz
  simp only [List.mem_map] at hz
  obtain ⟨level, hlev, rfl⟩ := hz
  have h1 := round2_le level
  have h2 := h level hlev
  simp only []
  linarith

/-- Helper: mirror of `zone_levels_lt`. -/
lemma zone_levels_gt (sens : ℚ) (levels : List ℚ) (df : List Candle)
    (zt : String) (p : ℚ) (h : ∀ l ∈ levels, p < l) :
    ∀ z ∈ calculate_zone_strength sens levels df zt, p - 1/200 < z.level := by
  intro z hz
  unfold calculate_zone_strength at hz
  simp only [List.mem_map] at hz
  obtain ⟨level, hlev, rfl⟩ := hz
  have h1 := le_round2 level
  have h2 := h level hlev
  simp only []
  linarith

/-- C2 amended: on every successful `detect_zones` call, every Support
zone's unrounded centroid is strictly below `current_price` and every
Resistance zone's unrounded centroid strictly above; after the 2-decimal
rounding of the `level` field this weakens by half a rounding unit:
`level < current_price + 0.005` for Support and
`level > current_price - 0.005` for Resistance. -/
theorem detect_zones_levels_near_price (sens : ℚ) (df : List Candle)
    (p : ℚ) (lookback : ℕ)
    (h : (detect_zones sens df p lookback).isOk = true) :
    (∀ z ∈ zonesSupport (detect_zones sens df p lookback),
        z.level < p + 1/200) ∧
    (∀ z ∈ zonesResistance (detect_zones sens df p lookback),
        p - 1/200 < z.level) := by
  rcases hS : detect_pivot_points (df.drop (df.length - min lookback df.length))
      "standard" with e | oS
  · simp only [detect_zones, hS, Except.isOk, Except.toBool] at h; exact absurd h (by simp)
  rcases hF : detect_pivot_points (df.drop (df.length - min lookback df.length))
      "fibonacci" with e | oF
  · simp only [detect_zones, hS, hF, Except.isOk, Except.toBool] at h; exact absurd h (by simp)
  rcases hC : detect_pivot_points (df.drop (df.length - min lookback df.length))
      "camarilla" with e | oC
  · simp only [detect_zones, hS, hF, hC, Except.isOk, Except.toBool] at h; exact absurd h (by simp)
  rcases hV : detect_volume_profile (df.drop (df.length - min lookback df.length))
      50 with e | vp
  · simp only [detect_zones, hS, hF, hC, hV, Except.isOk, Except.toBool] at h; exact absurd h (by simp)
  cases oS with
  | none => simp only [detect_zones, hS, hF, hC, hV, Except.isOk, Except.toBool] at h; exact absurd h (by simp)
  | some pS =>
  cases oF with
  | none => simp only [detect_zones, hS, hF, hC, hV, Except.isOk, Except.toBool] at h; exact absurd h (by simp)
  | some pF =>
  cases oC with
  | none => simp only [detect_zones, hS, hF, hC, hV, Except.isOk, Except.toBool] at h; exact absurd h (by simp)
  | some pC =>
  cases vp with
  | emptyList => simp only [detect_zones, hS, hF, hC, hV, Except.isOk, Except.toBool] at h; exact absurd h (by simp)
  | profile poc va tv =>
  rcases hcs : cluster_levels sens (support_below
      (detect_fractals (df.drop (df.length - min lookback df.length)) 5 5).1
      pS pF pC va p) with e | cs
  · simp only [detect_zones, hS, hF, hC, hV, hcs, Except.isOk,
      Except.toBool] at h
    exact absurd h (by simp)
  rcases hcr : cluster_levels sens (resistance_above
      (detect_fractals (df.drop (df.length - min lookback df.length)) 5 5).2
      pS pF pC va p) with e | cr
  · simp only [detect_zones, hS, hF, hC, hV, hcs, hcr, Except.isOk,
      Except.toBool] at h
    exact absurd h (by simp)
  simp only [detect_zones, hS, hF, hC, hV, hcs, hcr, zonesSupport,
    zonesResistance]
  constructor
  · refine zone_levels_lt sens _ _ _ p ?_
    intro l hl
    have h2 := List.take_subset 10 _ hl
    rw [List.mem_insertionSort] at h2
    refine cluster_levels_lt sens _ p _ hcs ?_ l h2
    intro x hx
    unfold support_below at hx
    have h3 := (List.mem_filter.mp hx).2
    exact of_decide_eq_true h3
  · refine zone_levels_gt sens _ _ _ p ?_
    intro l hl
    have h2 := List.take_subset 10 _ hl
    rw [List.mem_insertionSort] at h2
    refine cluster_levels_gt sens _ p _ hcr ?_ l h2
    intro x hx
    unfold resistance_above at hx
    have h3 := (List.mem_filter.mp hx).2
    exact of_decide_eq_true h3

/-- C2 counterexample: on the two-candle window `dfC2` with
`current_price = 9.9961`, the top support centroid is 9.996 (below the
price), but the emitted `level` field `round(9.996, 2) = 10.00` is NOT
below `current_price`, so the claim fails as stated on the output. -/
theorem support_zone_level_rounds_above_price :
    (zonesSupport (detect_zones (1/50) dfC2 pC2 100)).map Zone.level =
      [10, 103/20] ∧
    ¬ ((10 : ℚ) < pC2) := by
  constructor <;> with_unfolding_all decide

/-- C2 witness: the amended bound at the two-candle window `dfW2` with
`current_price = 11`; the support pool holds the nine pivot values at 10
and the value-area midpoint 5.15, so the DBSCAN radius is positive and
the call succeeds with support levels 10.00 and 5.15, both below
11.005. -/
theorem detect_zones_levels_near_price_witness :
    (detect_zones (1/50) dfW2 11 100).isOk = true ∧
    ((∀ z ∈ zonesSupport (detect_zones (1/50) dfW2 11 100),
        z.level < 11 + 1/200) ∧
     (∀ z ∈ zonesResistance (detect_zones (1/50) dfW2 11 100),
        11 - 1/200 < z.level)) :=
  ⟨by with_unfolding_all decide,
   detect_zones_levels_near_price (1/50) dfW2 11 100
     (by with_unfolding_all decide)⟩

/-! Claim C7 -/

/-- Helper: the mean of a singleton cluster is its element. -/
lemma meanQ_singleton (x : ℚ) : meanQ [x] = x := by
  simp [meanQ]

/-- Helper: lower bound on a sum from an elementwise lower bound. -/
lemma card_mul_le_sum (p : ℚ) :
    ∀ (g : List ℚ), (∀ a ∈ g, p ≤ a) → (g.length : ℚ) * p ≤ g.sum := by
  intro g
  induction g with
  | nil => intro _; simp
  | cons a t ih =>
    intro h
    have ht := ih (fun x hx => h x (List.mem_cons_of_mem _ hx))
    have ha := h a (by simp)
    simp only [List.sum_cons, List.length_cons]
    push_cast
    linarith

/-- Helper: upper bound on a sum from an elementwise upper bound. -/
lemma sum_le_card_mul (p : ℚ) :
    ∀ (g : List ℚ), (∀ a ∈ g, a ≤ p) → g.sum ≤ (g.length : ℚ) * p := by
  intro g
  induction g with
  | nil => intro _; simp
  | cons a t ih =>
    intro h
    have ht := ih (fun x hx => h x (List.mem_cons_of_mem _ hx))
    have ha := h a (by simp)
    simp only [List.sum_cons, List.length_cons]
    push_cast
    linarith

/-- Helper: the mean of a non-empty list is at least any elementwise
lower bound. -/
lemma le_meanQ_of_forall (g : List ℚ) (hg : g ≠ []) (p : ℚ)
    (h : ∀ a ∈ g, p ≤ a) : p ≤ meanQ g := by
  have hlen : (0 : ℚ) < (g.length : ℚ) := by
    have := List.length_pos.mpr hg
    exact_mod_cast this
  rw [meanQ, le_div_iff₀ hlen]
  have := card_mul_le_sum p g h
  linarith

/-- Helper: the mean of a non-empty list is at most any elementwise
upper bound. -/
lemma meanQ_le_of_forall (g : List ℚ) (hg : g ≠ []) (p : ℚ)
    (h : ∀ a ∈ g, a ≤ p) : meanQ g ≤ p := by
  have hlen : (0 : ℚ) < (g.length : ℚ) := by
    have := List.length_pos.mpr hg
    exact_mod_cast this
  rw [meanQ, div_le_iff₀ hlen]
  have := sum_le_card_mul p g h
  linarith

/-- Helper: prepending an element no larger than the mean cannot raise
the mean. -/
lemma meanQ_cons_le (x : ℚ) (g : List ℚ) (h : x ≤ meanQ g) :
    meanQ (x :: g) ≤ meanQ g := by
  cases g with
  | nil =>
    simp only [meanQ, List.sum_nil, List.length_nil] at h ⊢
    simp only [List.sum_cons, List.length_cons]
    norm_num at h ⊢
    linarith
  | cons b t =>
    have hlen : (0 : ℚ) < ((b :: t).length : ℚ) := by
      have : 0 < (b :: t).length := by simp
      exact_mod_cast this
    have hlen1 : (0 : ℚ) < ((b :: t).length : ℚ) + 1 := by linarith
    rw [meanQ, le_div_iff₀ hlen] at h
    rw [meanQ, meanQ]
    have hlc : ((x :: b :: t).length : ℚ) = ((b :: t).length : ℚ) + 1 := by
      simp only [List.length_cons]
      push_cast
      ring
    rw [hlc, div_le_div_iff₀ hlen1 hlen]
    simp only [List.sum_cons] at *
    ring_nf
    nlinarith [h]

/-- Helper: on a sorted input, consecutive cluster centroids are
separated by strictly more than `eps` — the left centroid is at most the
last value of its cluster, the right centroid at least the first value
of the next cluster, and the boundary gap exceeds `eps` by the split
rule. -/
lemma groupRuns_chain_sep (eps : ℚ) :
    ∀ (l : List ℚ), l.Sorted (· ≤ ·) →
      List.Chain' (fun a b => eps < b - a) ((groupRuns eps l).map meanQ) := by
  intro l
  induction l with
  | nil => intro _; simp [groupRuns]
  | cons x t ih =>
    intro hsort
    cases t with
    | nil => simp [groupRuns]
    | cons y s =>
      have hsort' : (y :: s).Sorted (· ≤ ·) := hsort.of_cons
      have hxy : x ≤ y := (List.sorted_cons.mp hsort).1 y (by simp)
      obtain ⟨g0, gs, hg0⟩ := groupRuns_head eps y s
      have IH := ih hsort'
      rw [hg0] at IH
      have hflat := groupRuns_flatten eps (y :: s)
      rw [hg0, List.flatten_cons] at hflat
      have hsub : ∀ a ∈ y :: g0, a ∈ y :: s := by
        intro a ha
        rw [← hflat]
        exact List.mem_append_left _ ha
      have hy_le : ∀ a ∈ y :: g0, y ≤ a := by
        intro a ha
        rcases List.mem_cons.mp (hsub a ha) with rfl | hmem
        · exact le_refl a
        · exact (List.sorted_cons.mp hsort').1 a hmem
      have hmean_y : y ≤ meanQ (y :: g0) :=
        le_meanQ_of_forall _ (by simp) y hy_le
      by_cases hxy2 : y - x ≤ eps
      · simp only [groupRuns, hg0, if_pos hxy2]
        rw [List.map_cons]
        rw [List.map_cons] at IH
        rw [List.chain'_cons'] at IH ⊢
        refine ⟨?_, IH.2⟩
        intro h hh
        have h1 := IH.1 h hh
        have hxm : x ≤ meanQ (y :: g0) := le_trans hxy hmean_y
        have h2 : meanQ (x :: y :: g0) ≤ meanQ (y :: g0) :=
          meanQ_cons_le x (y :: g0) hxm
        linarith
      · simp only [groupRuns, hg0, if_neg hxy2]
        rw [List.map_cons, List.map_cons]
        rw [List.map_cons] at IH
        rw [List.chain'_cons]
        refine ⟨?_, IH⟩
        rw [meanQ_singleton]
        push_neg at hxy2
        linarith

/-- Helper: when every adjacent gap exceeds `eps`, no merging happens
and each value forms its own cluster. -/
lemma groupRuns_singletons (eps : ℚ) :
    ∀ (l : List ℚ), List.Chain' (fun a b => ¬ (b - a ≤ eps)) l →
      groupRuns eps l = l.map (fun x => [x]) := by
  intro l
  induction l with
  | nil => intro _; rfl
  | cons x t ih =>
    intro hchain
    cases t with
    | nil => rfl
    | cons y s =>
      rw [List.chain'_cons] at hchain
      have IH := ih hchain.2
      simp only [groupRuns, IH, List.map_cons, if_neg hchain.1]

/-- Helper: a `max`-fold dominates its initial value. -/
lemma le_foldl_max : ∀ (t : List ℚ) (x : ℚ), x ≤ t.foldl max x := by
  intro t
  induction t with
  | nil => intro x; exact le_refl x
  | cons y s ih =>
    intro x
    exact le_trans (le_max_left x y) (ih (max x y))

/-- Helper: a `max`-fold dominates every element folded over. -/
lemma mem_le_foldl_max : ∀ (t : List ℚ) (x : ℚ), ∀ a ∈ t, a ≤ t.foldl max x := by
  intro t
  induction t with
  | nil => intro x a ha; simp at ha
  | cons y s ih =>
    intro x a ha
    rcases List.mem_cons.mp ha with rfl | hmem
    · exact le_trans (le_max_right x a) (le_foldl_max s (max x a))
    · exact ih (max x y) a hmem

/-- Helper: a `max`-fold returns its initial value or a list element. -/
lemma foldl_max_mem : ∀ (t : List ℚ) (x : ℚ),
    t.foldl max x = x ∨ t.foldl max x ∈ t := by
  intro t
  induction t with
  | nil => intro x; exact Or.inl rfl
  | cons y s ih =>
    intro x
    rcases ih (max x y) with h | h
    · rcases max_choice x y with hm | hm
      · left
        simp only [List.foldl_cons] at *
        rw [h, hm]
      · right
        simp only [List.foldl_cons]
        rw [h, hm]
        simp
    · right
      simp only [List.foldl_cons]
      exact List.mem_cons_of_mem _ h

/-- Helper: a `min`-fold is dominated by its initial value. -/
lemma foldl_min_le : ∀ (t : List ℚ) (x : ℚ), t.foldl min x ≤ x := by
  intro t
  induction t with
  | nil => intro x; exact le_refl x
  | cons y s ih =>
    intro x
    exact le_trans (ih (min x y)) (min_le_left x y)

/-- Helper: a `min`-fold is dominated by every element folded over. -/
lemma foldl_min_le_mem : ∀ (t : List ℚ) (x : ℚ), ∀ a ∈ t, t.foldl min x ≤ a := by
  intro t
  induction t with
  | nil => intro x a ha; simp at ha
  | cons y s ih =>
    intro x a ha
    rcases List.mem_cons.mp ha with rfl | hmem
    · exact le_trans (foldl_min_le s (min x a)) (min_le_right x a)
    · exact ih (min x y) a hmem

/-- Helper: a `min`-fold returns its initial value or a list element. -/
lemma foldl_min_mem : ∀ (t : List ℚ) (x : ℚ),
    t.foldl min x = x ∨ t.foldl min x ∈ t := by
  intro t
  induction t with
  | nil => intro x; exact Or.inl rfl
  | cons y s ih =>
    intro x
    rcases ih (min x y) with h | h
    · rcases min_choice x y with hm | hm
      · left
        simp only [List.foldl_cons] at *
        rw [h, hm]
      · right
        simp only [List.foldl_cons]
        rw [h, hm]
        simp
    · right
      simp only [List.foldl_cons]
      exact List.mem_cons_of_mem _ h

/-- Helper: `listMax` dominates every element. -/
lemma le_listMax (l : List ℚ) (a : ℚ) (ha : a ∈ l) : a ≤ listMax l := by
  cases l with
  | nil => simp at ha
  | cons x t =>
    rcases List.mem_cons.mp ha with rfl | hmem
    · exact le_foldl_max t a
    · exact mem_le_foldl_max t x a hmem

/-- Helper: `listMax` of a non-empty list is one of its elements. -/
lemma listMax_mem (l : List ℚ) (hl : l ≠ []) : listMax l ∈ l := by
  cases l with
  | nil => exact absurd rfl hl
  | cons x t =>
    rcases foldl_max_mem t x with h | h
    · rw [listMax, h]; simp
    · rw [listMax]; exact List.mem_cons_of_mem _ h

/-- Helper: `listMin` is dominated by every element. -/
lemma listMin_le (l : List ℚ) (a : ℚ) (ha : a ∈ l) : listMin l ≤ a := by
  cases l with
  | nil => simp at ha
  | cons x t =>
    rcases List.mem_cons.mp ha with rfl | hmem
    · exact foldl_min_le t a
    · exact foldl_min_le_mem t x a hmem

/-- Helper: `listMin` of a non-empty list is one of its elements. -/
lemma listMin_mem (l : List ℚ) (hl : l ≠ []) : listMin l ∈ l := by
  cases l with
  | nil => exact absurd rfl hl
  | cons x t =>
    rcases foldl_min_mem t x with h | h
    · rw [listMin, h]; simp
    · rw [listMin]; exact List.mem_cons_of_mem _ h

/-- Helper: the maximum is invariant under permutation. -/
lemma listMax_perm (l l' : List ℚ) (h : List.Perm l l') : listMax l = listMax l' := by
  by_cases hl : l = []
  · subst hl
    rw [List.Perm.eq_nil h.symm]
  · have hl' : l' ≠ [] := by
      intro he
      rw [he] at h
      exact hl h.eq_nil
    apply le_antisymm
    · exact le_listMax l' _ ((h.mem_iff).mp (listMax_mem l hl))
    · exact le_listMax l _ ((h.mem_iff).mpr (listMax_mem l' hl'))

/-- Helper: the minimum is invariant under permutation. -/
lemma listMin_perm (l l' : List ℚ) (h : List.Perm l l') : listMin l = listMin l' := by
  by_cases hl : l = []
  · subst hl
    rw [List.Perm.eq_nil h.symm]
  · have hl' : l' ≠ [] := by
      intro he
      rw [he] at h
      exact hl h.eq_nil
    apply le_antisymm
    · exact listMin_le l _ ((h.mem_iff).mpr (listMin_mem l' hl'))
    · exact listMin_le l' _ ((h.mem_iff).mp (listMin_mem l hl))

/-- Helper: every cluster centroid lies between any elementwise bounds
of the input list. -/
lemma meanQ_groupRuns_bounds (eps : ℚ) (l : List ℚ) (lo hi : ℚ)
    (hlo : ∀ a ∈ l, lo ≤ a) (hhi : ∀ a ∈ l, a ≤ hi) :
    ∀ m ∈ (groupRuns eps l).map meanQ, lo ≤ m ∧ m ≤ hi := by
  intro m hm
  simp only [List.mem_map] at hm
  obtain ⟨g, hg, rfl⟩ := hm
  have hne := groupRuns_ne_nil eps l g hg
  have hsub : ∀ a ∈ g, a ∈ l := by
    intro a ha
    have := List.mem_flatten.mpr ⟨g, hg, ha⟩
    rwa [groupRuns_flatten] at this
  exact ⟨le_meanQ_of_forall g hne lo (fun a ha => hlo a (hsub a ha)),
         meanQ_le_of_forall g hne hi (fun a ha => hhi a (hsub a ha))⟩

/-- C7: clustering is idempotent — whenever `cluster_levels s xs`
returns centroids (rather than raising DBSCAN's `ValueError` on a
non-positive radius), re-clustering those centroids with the same
sensitivity succeeds and returns exactly them.  Consecutive centroids
are separated by more than `eps = range(xs) * s > 0`, so the centroid
range is positive (the re-cluster radius is again positive) yet never
exceeds the input range, so the re-clustering radius is at most `eps`
and every centroid stays a singleton cluster equal to its own mean. -/
theorem cluster_levels_idempotent (s : ℚ) (xs out : List ℚ)
    (h : cluster_levels s xs = Except.ok out) :
    cluster_levels s out = Except.ok out := by
  unfold cluster_levels at h
  by_cases hlen : xs.length < 2
  · rw [if_pos hlen, Except.ok.injEq] at h
    subst h
    unfold cluster_levels
    rw [if_pos hlen]
  · rw [if_neg hlen] at h
    by_cases hepsle : (listMax xs - listMin xs) * s ≤ 0
    · rw [if_pos hepsle] at h
      exact absurd h (by simp)
    · rw [if_neg hepsle, Except.ok.injEq] at h
      push_neg at hepsle
      have hsorted : (xs.insertionSort fun a b => a ≤ b).Sorted (· ≤ ·) :=
        List.sorted_insertionSort _ xs
      set eps := (listMax xs - listMin xs) * s with heps
      set srt := xs.insertionSort fun a b => a ≤ b with hsrt
      set ms := (groupRuns eps srt).map meanQ with hms
      subst h
      have hchain : List.Chain' (fun a b => eps < b - a) ms :=
        groupRuns_chain_sep eps srt hsorted
      have hxs_ne : xs ≠ [] := by
        intro he
        rw [he] at hlen
        simp at hlen
      have hbounds : ∀ m ∈ ms, listMin xs ≤ m ∧ m ≤ listMax xs := by
        refine meanQ_groupRuns_bounds eps srt (listMin xs) (listMax xs) ?_ ?_
        · intro a ha
          exact listMin_le xs a ((List.mem_insertionSort _).mp ha)
        · intro a ha
          exact le_listMax xs a ((List.mem_insertionSort _).mp ha)
      have hms_sorted : ms.Sorted (· ≤ ·) := by
        have h1 : List.Chain' (fun a b => a ≤ b) ms := by
          refine hchain.imp ?_
          intro a b hab
          linarith
        exact List.chain'_iff_pairwise.mp h1
      rw [hms_sorted.insertionSort_eq]
      unfold cluster_levels
      by_cases hmslen : ms.length < 2
      · rw [if_pos hmslen]
      · -- at least two centroids: the original range and sensitivity are
        -- positive, the centroid range is positive, so the re-clustering
        -- radius is positive and below the original one
        have hms_ne : ms ≠ [] := by
          intro he
          rw [he] at hmslen
          simp at hmslen
        have hrange0 : 0 ≤ listMax xs - listMin xs := by
          have := le_listMax xs _ (listMin_mem xs hxs_ne)
          linarith
        have hrange : 0 < listMax xs - listMin xs := by
          rcases eq_or_lt_of_le hrange0 with he | hlt
          · exfalso
            rw [heps, ← he] at hepsle
            simp at hepsle
          · exact hlt
        have hs_pos : 0 < s := by
          by_contra hs
          push_neg at hs
          have : (listMax xs - listMin xs) * s ≤ 0 :=
            mul_nonpos_of_nonneg_of_nonpos (le_of_lt hrange) hs
          rw [← heps] at this
          linarith
        obtain ⟨m1, t1, h1⟩ := List.exists_cons_of_ne_nil hms_ne
        have ht1 : t1 ≠ [] := by
          intro he
          rw [h1, he] at hmslen
          simp at hmslen
        obtain ⟨m2, rest, h2⟩ := List.exists_cons_of_ne_nil ht1
        have hms2 : ms = m1 :: m2 :: rest := by rw [h1, h2]
        have hsep : eps < m2 - m1 := by
          rw [hms2] at hchain
          exact (List.chain'_cons.mp hchain).1
        have hm1 : listMin ms ≤ m1 := listMin_le ms m1 (by rw [hms2]; simp)
        have hm2 : m2 ≤ listMax ms := le_listMax ms m2 (by rw [hms2]; simp)
        have hrange_ms : 0 < listMax ms - listMin ms := by
          have heps_pos : 0 < eps := by rw [heps] at hepsle ⊢; exact hepsle
          linarith
        have heps2_pos : 0 < (listMax ms - listMin ms) * s :=
          mul_pos hrange_ms hs_pos
        rw [if_neg (by linarith)]
        have hmaxms : listMax ms ≤ listMax xs :=
          (hbounds (listMax ms) (listMax_mem ms hms_ne)).2
        have hminms : listMin xs ≤ listMin ms :=
          (hbounds (listMin ms) (listMin_mem ms hms_ne)).1
        have hepsle2 : (listMax ms - listMin ms) * s ≤ eps := by
          rw [heps]
          exact mul_le_mul_of_nonneg_right (by linarith) (le_of_lt hs_pos)
        have hms_chain : List.Chain' (fun a b =>
            ¬ (b - a ≤ (listMax ms - listMin ms) * s)) ms := by
          refine hchain.imp ?_
          intro a b hab hle
          linarith
        have hsing2 : groupRuns ((listMax ms - listMin ms) * s) ms =
            ms.map (fun x => [x]) :=
          groupRuns_singletons _ ms hms_chain
        have hcomp : (meanQ ∘ fun (x : ℚ) => [x]) = id := by
          funext x
          simp [meanQ_singleton]
        rw [hms_sorted.insertionSort_eq, hsing2, List.map_map, hcomp,
          List.map_id, hms_sorted.insertionSort_eq, if_neg (by linarith)]

/-- C7 witness: the idempotence hypothesis discharged at the concrete
pool `[0, 1, 100]` with the default sensitivity 0.02, whose centroids
are `[0.5, 100]`. -/
theorem cluster_levels_idempotent_witness :
    cluster_levels (1/50) [0, 1, 100] = Except.ok [1/2, 100] ∧
    cluster_levels (1/50) [1/2, 100] = Except.ok [1/2, 100] :=
  ⟨by with_unfolding_all decide,
   cluster_levels_idempotent (1/50) [0, 1, 100] [1/2, 100]
     (by with_unfolding_all decide)⟩
